import Mathlib

/-
Verification of the Bluesky post fetch/normalize/analyze pipeline
(src/src/bluesky_analyzer.py) against its natural-language specification.

The Python program is shallowly embedded:
- raw API records (Python dicts) become structures whose optional fields
  model dict keys that may be absent (dict.get with a default);
- the pagination loop of BlueskyAnalyzer.fetch_posts becomes a recursion
  over the finite trace of server responses (one trace entry per HTTP
  round-trip; a transport exception is one trace entry);
- BlueskyAnalyzer.parse_posts becomes a filterMap: the per-record
  try/except that skips a malformed record is modelled by returning none;
- the external library call datetime.fromisoformat is a parameter
  (fromiso); a string on which the library raises ValueError is one on
  which fromiso returns none;
- pandas operations in BlueskyAnalyzer.analyze_posts are modelled on the
  list of rows; operations that raise in Python (column access on the
  empty, column-less DataFrame; strftime on the NaN min of an all-null
  column) are modelled by Except.error.
-/

namespace BlueskyAnalyzer

/-- Model of a Python datetime value as produced by datetime.fromisoformat
(timezone information is not tracked; it never affects the analyzed fields). -/
structure DateTime where
  year : Nat
  month : Nat
  day : Nat
  hourv : Nat
  minute : Nat
  second : Nat
deriving Repr, DecidableEq

/-- One feature inside a facet. The source reads the dict keys via
feature.get, so every key may be absent. -/
structure Feature where
  ftype : Option String
  did : Option String
  tag : Option String
  uri : Option String
deriving Repr, DecidableEq

/-- One facet: the source iterates facet.get of the features key with default empty list. -/
structure Facet where
  features : List Feature
deriving Repr, DecidableEq

/-- The value sub-document of a raw post, as read by parse_posts
(each field via value.get with a default). embedType models the type tag of the
embed sub-document (none when the embed is absent or untyped); reply models
the Python truthiness of the reply sub-document. -/
structure PostValue where
  createdAt : Option String
  text : Option String
  facets : List Facet
  embedType : Option String
  reply : Bool
deriving Repr, DecidableEq

/-- The value field of a raw post: absent (post.get yields the empty dict),
present with a wrong, non-mapping shape (any attribute access raises), or a
well-shaped sub-document. -/
inductive ValueField where
  | absent
  | invalid
  | valid (v : PostValue)
deriving Repr, DecidableEq

/-- A raw post record as returned by the listing endpoint. -/
structure RawPost where
  uri : Option String
  cid : Option String
  value : ValueField
deriving Repr, DecidableEq

/-- One row of the DataFrame built by parse_posts. -/
structure NormalizedRecord where
  uri : String
  cid : String
  text : String
  created_at : Option DateTime
  char_count : Nat
  word_count : Nat
  mentions : List String
  hashtags : List String
  links : List String
  mention_count : Nat
  hashtag_count : Nat
  link_count : Nat
  has_image : Bool
  has_external : Bool
  is_reply : Bool
  hour : Option Nat
  day_of_week : Option Nat
  date : Option (Nat × Nat × Nat)
deriving Repr, DecidableEq

/-- Number of words of Python str.split with no separator: maximal runs of
non-whitespace characters. The Boolean flag records whether the previous
character was inside a word. -/
def countWordsAux : List Char → Bool → Nat
  | [], _ => 0
  | c :: cs, inWord =>
    if c.isWhitespace then countWordsAux cs false
    else (if inWord then 0 else 1) + countWordsAux cs true

/-- len of text.split with no arguments. -/
def countWords (l : List Char) : Nat := countWordsAux l false

/-- Python day_names index: weekday with 0 = Monday, from the Gregorian date,
as computed by datetime.weekday. Sakamoto's method gives 0 = Sunday; the
final shift moves Monday to 0. -/
def weekdayOf (y m d : Nat) : Nat :=
  let t : List Nat := [0, 3, 2, 5, 0, 3, 5, 1, 4, 6, 2, 4]
  let y2 := if m < 3 then y - 1 else y
  let w := (y2 + y2 / 4 - y2 / 100 + y2 / 400 + t.getD (m - 1) 0 + d) % 7
  (w + 6) % 7

/-- Accumulator for the facet walk: the three sequences built in
encounter order. -/
structure FacetAcc where
  mentions : List String
  hashtags : List String
  links : List String
deriving Repr, DecidableEq

/-- One feature of one facet, classified by its declared type tag; the
associated value is read with default empty string (feature.get). -/
def featureStep (acc : FacetAcc) (f : Feature) : FacetAcc :=
  if f.ftype = some "app.bsky.richtext.facet#mention" then
    { acc with mentions := acc.mentions ++ [f.did.getD ""] }
  else if f.ftype = some "app.bsky.richtext.facet#tag" then
    { acc with hashtags := acc.hashtags ++ [f.tag.getD ""] }
  else if f.ftype = some "app.bsky.richtext.facet#link" then
    { acc with links := acc.links ++ [f.uri.getD ""] }
  else acc

/-- The inner loop over the features of one facet. -/
def facetStep (acc : FacetAcc) (facet : Facet) : FacetAcc :=
  facet.features.foldl featureStep acc

/-- The nested facet walk of parse_posts. -/
def extractFacets (facets : List Facet) : FacetAcc :=
  facets.foldl facetStep (FacetAcc.mk [] [] [])

/-- The empty dict that post.get substitutes for an absent value field. -/
def emptyValue : PostValue :=
  { createdAt := none, text := none, facets := [], embedType := none, reply := false }

/-- The row dict built at the end of the parse_posts loop body, given the
already-parsed timestamp. -/
def mkParsed (post : RawPost) (v : PostValue) (timestamp : Option DateTime) :
    NormalizedRecord :=
  let text := v.text.getD ""
  let fa := extractFacets v.facets
  { uri := post.uri.getD ""
    cid := post.cid.getD ""
    text := text
    created_at := timestamp
    char_count := text.length
    word_count := if text = "" then 0 else countWords text.data
    mentions := fa.mentions
    hashtags := fa.hashtags
    links := fa.links
    mention_count := fa.mentions.length
    hashtag_count := fa.hashtags.length
    link_count := fa.links.length
    has_image := v.embedType = some "app.bsky.embed.images"
    has_external := v.embedType = some "app.bsky.embed.external"
    is_reply := v.reply
    hour := timestamp.map (fun ts => ts.hourv)
    day_of_week := timestamp.map (fun ts => weekdayOf ts.year ts.month ts.day)
    date := timestamp.map (fun ts => (ts.year, ts.month, ts.day)) }

/-- Each occurrence of the character Z replaced by the five characters of
the UTC offset suffix. -/
def replaceZAux : List Char → List Char
  | [] => []
  | c :: cs =>
    if c = 'Z' then '+' :: '0' :: '0' :: ':' :: '0' :: '0' :: replaceZAux cs
    else c :: replaceZAux cs

/-- The created_at.replace call of parse_posts with its fixed arguments:
every occurrence of the substring Z becomes the UTC offset suffix. -/
def replaceZ (s : String) : String :=
  String.mk (replaceZAux s.data)

/-- The try-block body of parse_posts for a post whose value field has a
usable shape. A non-empty createdAt string on which fromisoformat raises
(fromiso returns none) aborts the record: the except clause skips it. -/
def parseWithValue (fromiso : String → Option DateTime) (post : RawPost)
    (v : PostValue) : Option NormalizedRecord :=
  if v.createdAt.getD "" = "" then some (mkParsed post v none)
  else
    match fromiso (replaceZ (v.createdAt.getD "")) with
    | some d => some (mkParsed post v (some d))
    | none => none

/-- One iteration of the parse_posts loop: none means the record was
skipped by the except clause. -/
def parsePost (fromiso : String → Option DateTime) (post : RawPost) :
    Option NormalizedRecord :=
  match post.value with
  | ValueField.invalid => none
  | ValueField.absent => parseWithValue fromiso post emptyValue
  | ValueField.valid v => parseWithValue fromiso post v

/-- parse_posts: one row per raw post that survives the try/except. -/
def parse_posts (fromiso : String → Option DateTime) (raws : List RawPost) :
    List NormalizedRecord :=
  raws.filterMap (parsePost fromiso)

/-- One server round-trip of the pagination loop: either a transport or
protocol error (requests raises, the except clause breaks), or a JSON body
with its records list and optional continuation cursor. -/
inductive PageResult where
  | err
  | ok (records : List RawPost) (cursor : Option String)
deriving Repr, DecidableEq

/-- The records contributed by one server response. -/
def pageRecords : PageResult → List RawPost
  | PageResult.err => []
  | PageResult.ok records _ => records

/-- The while-loop of fetch_posts over the finite trace of server
responses; posts is the accumulator. Mirrors the source order: empty batch
break, extend, cursor-absence break, then the cap check (which only runs
when a continuation cursor was returned). The Python guard
"if limit and total_fetched >= limit" is truthy only for a nonzero limit. -/
def fetchLoop (limit : Option Nat) : List PageResult → List RawPost → List RawPost
  | [], posts => posts
  | PageResult.err :: _, posts => posts
  | PageResult.ok records cursor :: rest, posts =>
    if records.isEmpty then posts
    else
      let posts2 := posts ++ records
      match cursor with
      | none => posts2
      | some _ =>
        match limit with
        | none => fetchLoop none rest posts2
        | some l =>
          if 0 < l ∧ l ≤ posts2.length then posts2.take l
          else fetchLoop (some l) rest posts2

/-- fetch_posts: run the pagination loop from the empty accumulator against
the given trace of server responses. -/
def fetch_posts (limit : Option Nat) (pages : List PageResult) : List RawPost :=
  fetchLoop limit pages []

/-- The elements of a list in first-encounter order, each once; seen holds
the elements already emitted. This is the key order of a Python dict or
Counter built by insertion. -/
def firstOccsAux {α : Type} [DecidableEq α] (seen : List α) : List α → List α
  | [] => []
  | x :: xs =>
    if x ∈ seen then firstOccsAux seen xs else x :: firstOccsAux (x :: seen) xs

/-- First-encounter-ordered distinct elements of a list. -/
def firstOccs {α : Type} [DecidableEq α] (l : List α) : List α :=
  firstOccsAux [] l

/-- Adding one element to a Counter modelled as an insertion-ordered
association list: an existing key keeps its position and its count grows,
a new key is appended with count 1. -/
def counterAdd (acc : List (String × Nat)) (t : String) : List (String × Nat) :=
  if acc.any (fun q => q.1 = t) then
    acc.map (fun q => if q.1 = t then (q.1, q.2 + 1) else q)
  else acc ++ [(t, 1)]

/-- collections.Counter over a list of strings, as an insertion-ordered
association list of (element, count). -/
def counterList (xs : List String) : List (String × Nat) :=
  xs.foldl counterAdd []

/-- Insert a (tag, count) pair into a list that is sorted by descending
count, after every pair of strictly greater count and before the first
pair of less-or-equal count. Under the right fold below, the inserted pair
comes earlier in the input than everything already sorted, so placing it
before all equal counts keeps ties in input order. -/
def insertDesc (x : String × Nat) : List (String × Nat) → List (String × Nat)
  | [] => [x]
  | y :: ys => if y.2 ≤ x.2 then x :: y :: ys else y :: insertDesc x ys

/-- Stable sort by descending count, as performed by Counter.most_common:
heapq.nlargest is specified as tie-stable sorted with reverse, then a
prefix, so equal counts stay in the order of the input — for a Counter,
first-encounter order. -/
def sortDescCount (l : List (String × Nat)) : List (String × Nat) :=
  l.foldr insertDesc []

/-- Insert into an ascending list of group keys. -/
def insertAsc (x : Nat) : List Nat → List Nat
  | [] => [x]
  | y :: ys => if x ≤ y then x :: y :: ys else y :: insertAsc x ys

/-- Ascending sort of group keys, as pandas groupby sorts its keys. -/
def sortAsc (l : List Nat) : List Nat :=
  l.foldr insertAsc []

/-- pandas groupby(...).size over a key column: the distinct keys in
ascending order, each with its number of occurrences. Null keys never reach
this point (they are filtered out before, as groupby drops them). -/
def groupCounts (keys : List Nat) : List (Nat × Nat) :=
  (sortAsc (firstOccs keys)).map (fun k => (k, keys.count k))

/-- Series.idxmax over a (key, count) list: the first pair, in index order,
whose count is maximal. -/
def firstMaxPair : List (Nat × Nat) → Option (Nat × Nat) :=
  List.foldl
    (fun best p =>
      match best with
      | none => some p
      | some b => if b.2 < p.2 then some p else some b)
    none

/-- The day_names list of analyze_posts. -/
def dayNames : List String :=
  ["Monday", "Tuesday", "Wednesday", "Thursday", "Friday", "Saturday", "Sunday"]

/-- Decimal rendering of a natural number, zero-padded to the given width. -/
def padNat (w n : Nat) : String :=
  let s := toString n
  String.mk (List.replicate (w - s.length) '0') ++ s

/-- strftime with the year-month-day format used for the date range. -/
def fmtDate (t : DateTime) : String :=
  padNat 4 t.year ++ "-" ++ padNat 2 t.month ++ "-" ++ padNat 2 t.day

/-- A calendar month key (year * 100 + month) and its str(Period) rendering. -/
def monthKey (t : DateTime) : Nat :=
  t.year * 100 + t.month

/-- str of a pandas monthly Period. -/
def fmtMonth (k : Nat) : String :=
  padNat 4 (k / 100) ++ "-" ++ padNat 2 (k % 100)

/-- Python datetime comparison: lexicographic on the fields. -/
def dtLe (a b : DateTime) : Bool :=
  if a.year = b.year then
    if a.month = b.month then
      if a.day = b.day then
        if a.hourv = b.hourv then
          if a.minute = b.minute then decide (a.second ≤ b.second)
          else decide (a.minute < b.minute)
        else decide (a.hourv < b.hourv)
      else decide (a.day < b.day)
    else decide (a.month < b.month)
  else decide (a.year < b.year)

/-- Series.min over the created_at column: nulls are skipped; none when no
non-null value exists. -/
def minCreated (table : List NormalizedRecord) : Option DateTime :=
  table.foldl
    (fun acc r =>
      match acc, r.created_at with
      | none, x => x
      | some m, none => some m
      | some m, some t => some (if dtLe t m then t else m))
    none

/-- Series.max over the created_at column, skipping nulls. -/
def maxCreated (table : List NormalizedRecord) : Option DateTime :=
  table.foldl
    (fun acc r =>
      match acc, r.created_at with
      | none, x => x
      | some m, none => some m
      | some m, some t => some (if dtLe m t then t else m))
    none

/-- The flattened multiset of all hashtags across all rows, in row order. -/
def flatTags (table : List NormalizedRecord) : List String :=
  (table.map (fun r => r.hashtags)).flatten

/-- The hashtag block of analyze_posts: total_used (len of the flattened
list), unique_hashtags (len of its set), most_common
(Counter.most_common with argument 10). -/
def hashtagStats (table : List NormalizedRecord) : Nat × Nat × List (String × Nat) :=
  ((flatTags table).length, (flatTags table).toFinset.card,
    (sortDescCount (counterList (flatTags table))).take 10)

/-- The posting_patterns sub-dictionary of the analysis. -/
structure PostingPatterns where
  busiest_hour : Nat
  busiest_hour_count : Nat
  posts_by_hour : List (Nat × Nat)
  posts_by_day : List (String × Nat)
  monthly_activity : List (String × Nat)
deriving Repr, DecidableEq

/-- The fields of the analysis dictionary returned by analyze_posts, with
the content and hashtag sub-dictionaries flattened into named fields. -/
structure Analysis where
  total_posts : Nat
  date_range_earliest : Option String
  date_range_latest : Option String
  avg_char_count : Rat
  avg_word_count : Rat
  longest_post : String
  longest_post_chars : Nat
  reply_percentage : Rat
  posts_with_images : Nat
  posts_with_links : Nat
  hashtags_total_used : Nat
  unique_hashtags : Nat
  most_common : List (String × Nat)
  posting_patterns : Option PostingPatterns
deriving Repr, DecidableEq

/-- The row whose char_count attains the column maximum, first such row on
ties, as Series.idxmax followed by DataFrame.loc; only meaningful for a
non-empty table (analyze_posts errors before using it otherwise). -/
def argmaxChar (table : List NormalizedRecord) : NormalizedRecord :=
  match table with
  | [] => mkParsed (RawPost.mk none none ValueField.absent) emptyValue none
  | h :: t => t.foldl (fun best r => if best.char_count < r.char_count then r else best) h

/-- The posting-patterns computation: group by hour, by weekday and by
calendar month, always over the rows whose key is non-null (pandas groupby
drops null keys). -/
def mkPatterns (table : List NormalizedRecord) : PostingPatterns :=
  let hourly := groupCounts (table.filterMap (fun r => r.hour))
  let best := (firstMaxPair hourly).getD (0, 0)
  { busiest_hour := best.1
    busiest_hour_count := best.2
    posts_by_hour := hourly
    posts_by_day :=
      (groupCounts (table.filterMap (fun r => r.day_of_week))).map
        (fun p => (dayNames.getD p.1 "", p.2))
    monthly_activity :=
      (groupCounts (table.filterMap (fun r => r.created_at.map monthKey))).map
        (fun p => (fmtMonth p.1, p.2)) }

/-- The analysis dictionary for a non-empty table whose created_at column
has the given min and max. -/
def buildAnalysis (table : List NormalizedRecord) (lo hi : DateTime) : Analysis :=
  let n := table.length
  let hs := hashtagStats table
  { total_posts := n
    date_range_earliest := some (fmtDate lo)
    date_range_latest := some (fmtDate hi)
    avg_char_count :=
      ((table.foldl (fun s r => s + r.char_count) 0 : Nat) : Rat) / (n : Rat)
    avg_word_count :=
      ((table.foldl (fun s r => s + r.word_count) 0 : Nat) : Rat) / (n : Rat)
    longest_post := (argmaxChar table).text
    longest_post_chars := table.foldl (fun m r => max m r.char_count) 0
    reply_percentage :=
      ((table.countP (fun r => r.is_reply) : Nat) : Rat) / (n : Rat) * 100
    posts_with_images := table.countP (fun r => r.has_image)
    posts_with_links := table.countP (fun r => r.has_external)
    hashtags_total_used := hs.1
    unique_hashtags := hs.2.1
    most_common := hs.2.2
    posting_patterns :=
      if table.any (fun r => r.created_at.isSome) then some (mkPatterns table)
      else none }

/-- analyze_posts. An empty table means the DataFrame has no columns at
all, so the first unguarded column access (the char_count mean) raises
KeyError; the date-range expression before it is guarded by df.empty and
yields nulls without touching a column. A non-empty table whose created_at
values are all null makes Series.min return a null, on which strftime
raises. Otherwise the analysis dictionary is returned. -/
def analyze_posts (table : List NormalizedRecord) : Except String Analysis :=
  if table.isEmpty then Except.error "KeyError: char_count"
  else
    match minCreated table, maxCreated table with
    | some lo, some hi => Except.ok (buildAnalysis table lo hi)
    | _, _ => Except.error "NaTType does not support strftime"

/-- The spec-side contents of a Counter: the distinct elements in
first-encounter order, each with its total multiplicity. -/
def tally (xs : List String) : List (String × Nat) :=
  (firstOccs xs).map (fun t => (t, xs.count t))

/-- The hashtag top-10 exactly as the specification words it: the (tag,
count) pairs, sorted descending by count with ties broken by
first-encounter order in the flattened multiset, first ten kept. -/
def mostCommonSpec (xs : List String) : List (String × Nat) :=
  (sortDescCount (tally xs)).take 10

/-- A concrete stand-in for datetime.fromisoformat: parses exactly one
timestamp string (the one used by the concrete witnesses, already in the
form produced by the replace of the Z suffix) and raises — returns none —
on everything else. -/
def demoIso (s : String) : Option DateTime :=
  if s = "2024-03-04T05:06:07+00:00" then some (DateTime.mk 2024 3 4 5 6 7) else none

/-- The DateTime that demoIso yields. -/
def demoDT : DateTime := DateTime.mk 2024 3 4 5 6 7

/-- A well-formed raw post with no timestamp and no facets. -/
def plainPost : RawPost :=
  RawPost.mk (some "at://p") (some "cid0")
    (ValueField.valid (PostValue.mk none (some "hello world") [] none false))

/-- A well-formed raw post carrying the parseable demo timestamp. -/
def timedPost : RawPost :=
  RawPost.mk (some "at://t") (some "cid1")
    (ValueField.valid
      (PostValue.mk (some "2024-03-04T05:06:07Z") (some "timed") [] none false))

/-- A raw post whose createdAt holds a non-empty string that
datetime.fromisoformat rejects. -/
def badTimePost : RawPost :=
  RawPost.mk (some "at://b") (some "cid2")
    (ValueField.valid (PostValue.mk (some "not-a-date") (some "oops") [] none false))

/-- A raw post whose value field is missing altogether. -/
def noValuePost : RawPost := RawPost.mk (some "at://m") (some "cid3") ValueField.absent

/-- A raw post whose value field has a wrong, non-mapping shape. -/
def invalidValuePost : RawPost :=
  RawPost.mk (some "at://i") (some "cid4") ValueField.invalid

/-- A normalized row carrying only a hashtags list, with every
timestamp-derived field null; used by the concrete hashtag examples. -/
def recWithTags (ts : List String) : NormalizedRecord :=
  { uri := "", cid := "", text := "", created_at := none, char_count := 0,
    word_count := 0, mentions := [], hashtags := ts, links := [],
    mention_count := 0, hashtag_count := ts.length, link_count := 0,
    has_image := false, has_external := false, is_reply := false,
    hour := none, day_of_week := none, date := none }

/-- The three-row hashtag example table of the specification. -/
def demoTagTable : List NormalizedRecord :=
  [recWithTags ["a", "b"], recWithTags ["a"], recWithTags []]

/-- A hashtag table with a genuine tie: tags x and y each occur twice and
x is encountered first (even though the second occurrence of y precedes
the second occurrence of x), so most_common must list x before y. -/
def demoTieTable : List NormalizedRecord :=
  [recWithTags ["x", "y"], recWithTags ["y", "x"], recWithTags ["z"]]

/-- The normalized row that parse_posts produces for plainPost. -/
def rPlain : NormalizedRecord :=
  mkParsed plainPost (PostValue.mk none (some "hello world") [] none false) none

/-- The normalized row that parse_posts produces for timedPost. -/
def rTimed : NormalizedRecord :=
  mkParsed timedPost
    (PostValue.mk (some "2024-03-04T05:06:07Z") (some "timed") [] none false)
    (some demoDT)

/-- Server trace for the cap check: a single terminal page (no continuation
cursor) of sixty records, together with a cap of fifty. -/
def c1Pages : List PageResult :=
  [PageResult.ok (List.replicate 60 plainPost) none]

/-- A batch of ten raw posts whose fourth entry lacks the value field. -/
def c5MissingBatch : List RawPost :=
  [plainPost, plainPost, plainPost, noValuePost, plainPost, plainPost,
   plainPost, plainPost, plainPost, plainPost]

/-- The first three well-formed posts of the ten-record batch. -/
def c5Pre : List RawPost := [plainPost, plainPost, plainPost]

/-- The last six well-formed posts of the ten-record batch. -/
def c5Post : List RawPost :=
  [plainPost, plainPost, plainPost, plainPost, plainPost, plainPost]

/-- A tag-typed facet feature that lacks its tag value field. -/
def tagNoValueFeature : Feature :=
  Feature.mk (some "app.bsky.richtext.facet#tag") none none none

/-- The value sub-document holding one facet whose single feature is
tag-typed but has no tag value. -/
def vTagNoValue : PostValue :=
  PostValue.mk none (some "post") [Facet.mk [tagNoValueFeature]] none false

/-- A raw post carrying one facet whose single feature is tag-typed but has
no tag value. -/
def tagNoValuePost : RawPost :=
  RawPost.mk (some "at://tag") none (ValueField.valid vTagNoValue)

/-- The value sub-document of plainPost. -/
def vPlain : PostValue := PostValue.mk none (some "hello world") [] none false

/-- The two-row table used by the null-timestamp witness: the null-row
rPlain prepended to the timestamped row rTimed. -/
def demoNullTable : List NormalizedRecord := rPlain :: [rTimed]

/-- The analysis of the two-row witness table. -/
def aC2 : Analysis := buildAnalysis demoNullTable demoDT demoDT

/-- The analysis of the one-row witness table without the null row. -/
def a2C2 : Analysis := buildAnalysis [rTimed] demoDT demoDT

/-- Every record that parseWithValue emits is the mkParsed row of its post
and value, for some timestamp. -/
theorem parseWithValue_shape {fromiso : String → Option DateTime} {p : RawPost}
    {v : PostValue} {r : NormalizedRecord}
    (h : parseWithValue fromiso p v = some r) : ∃ ts, r = mkParsed p v ts := by
  unfold parseWithValue at h
  split at h
  · exact ⟨none, (Option.some.injEq _ _ ▸ h).symm⟩
  · split at h
    · next d _ => exact ⟨some d, (Option.some.injEq _ _ ▸ h).symm⟩
    · exact absurd h (by simp)

/-- Every record that parse_posts emits is the mkParsed row of its raw
post, for some timestamp. -/
theorem parsePost_shape {fromiso : String → Option DateTime} {p : RawPost}
    {r : NormalizedRecord} (h : parsePost fromiso p = some r) :
    ∃ v ts, r = mkParsed p v ts := by
  unfold parsePost at h
  split at h
  · exact absurd h (by simp)
  · obtain ⟨ts, ht⟩ := parseWithValue_shape h
    exact ⟨emptyValue, ts, ht⟩
  · next v hv =>
    obtain ⟨ts, ht⟩ := parseWithValue_shape h
    exact ⟨v, ts, ht⟩

/-- For a post with a well-shaped value field, the emitted record is the
mkParsed row of that value. -/
theorem parsePost_valid {fromiso : String → Option DateTime} {p : RawPost}
    {v : PostValue} {r : NormalizedRecord} (hv : p.value = ValueField.valid v)
    (h : parsePost fromiso p = some r) : ∃ ts, r = mkParsed p v ts := by
  unfold parsePost at h
  rw [hv] at h
  exact parseWithValue_shape h

/-- The word count of the split is zero exactly when every character is
whitespace. -/
theorem countWordsAux_false_eq_zero (l : List Char) :
    countWordsAux l false = 0 ↔ l.all (fun c => c.isWhitespace) = true := by
  induction l with
  | nil => simp [countWordsAux]
  | cons c cs ih =>
    by_cases hc : c.isWhitespace
    · simpa [countWordsAux, hc] using ih
    · simp [countWordsAux, hc]

/-- A filterMap whose function succeeds on every element preserves length. -/
theorem length_filterMap_isSome {α β : Type} (f : α → Option β) (l : List α)
    (h : ∀ x ∈ l, (f x).isSome = true) : (l.filterMap f).length = l.length := by
  induction l with
  | nil => rfl
  | cons a t ih =>
    rw [List.filterMap_cons]
    rcases hfa : f a with _ | b
    · exact absurd (h a (List.mem_cons_self a t)) (by simp [hfa])
    · simpa using ih (fun x hx => h x (List.mem_cons_of_mem a hx))

/-- A leading null row does not change the minimum of the created_at
column. -/
theorem minCreated_cons_null {r : NormalizedRecord} {T : List NormalizedRecord}
    (h : r.created_at = none) : minCreated (r :: T) = minCreated T := by
  simp only [minCreated, List.foldl_cons, h]

/-- A leading null row does not change the maximum of the created_at
column. -/
theorem maxCreated_cons_null {r : NormalizedRecord} {T : List NormalizedRecord}
    (h : r.created_at = none) : maxCreated (r :: T) = maxCreated T := by
  simp only [maxCreated, List.foldl_cons, h]

/-- Inversion of a successful analyze_posts run: the table is non-empty,
its created_at column has a minimum and a maximum, and the result is the
analysis dictionary built from them. -/
theorem analyze_ok_inv {table : List NormalizedRecord} {a : Analysis}
    (h : analyze_posts table = Except.ok a) :
    ∃ lo hi, table.isEmpty = false ∧ minCreated table = some lo ∧
      maxCreated table = some hi ∧ a = buildAnalysis table lo hi := by
  unfold analyze_posts at h
  split at h
  · exact absurd h (by simp)
  · next hemp =>
    split at h
    · next lo hi hmin hmax =>
      exact ⟨lo, hi, by simpa using hemp, hmin, hmax,
        (Except.ok.injEq _ _ ▸ h).symm⟩
    · exact absurd h (by simp)

/-- Membership in the first-encounter list: present in the input and not
already seen. -/
theorem mem_firstOccsAux {α : Type} [DecidableEq α] (l : List α) :
    ∀ (seen : List α) (x : α),
      x ∈ firstOccsAux seen l ↔ x ∈ l ∧ x ∉ seen := by
  induction l with
  | nil => intro seen x; simp [firstOccsAux]
  | cons a t ih =>
    intro seen x
    by_cases ha : a ∈ seen
    · rw [firstOccsAux, if_pos ha, ih]
      constructor
      · rintro ⟨hx, hns⟩
        exact ⟨List.mem_cons_of_mem a hx, hns⟩
      · rintro ⟨hx, hns⟩
        rcases List.mem_cons.1 hx with rfl | hx
        · exact absurd ha hns
        · exact ⟨hx, hns⟩
    · rw [firstOccsAux, if_neg ha]
      constructor
      · intro hx
        rcases List.mem_cons.1 hx with rfl | hx
        · exact ⟨List.mem_cons_self x t, ha⟩
        · obtain ⟨h1, h2⟩ := (ih (a :: seen) x).1 hx
          refine ⟨List.mem_cons_of_mem a h1, fun hs => h2 (List.mem_cons_of_mem a hs)⟩
      · rintro ⟨hx, hns⟩
        rcases List.mem_cons.1 hx with rfl | hx
        · exact List.mem_cons_self x _
        · by_cases hxa : x = a
          · subst hxa; exact List.mem_cons_self x _
          · exact List.mem_cons_of_mem a
              ((ih (a :: seen) x).2 ⟨hx, by simp [hxa, hns]⟩)

/-- The first-encounter list never repeats an element. -/
theorem nodup_firstOccsAux {α : Type} [DecidableEq α] (l : List α) :
    ∀ seen : List α, (firstOccsAux seen l).Nodup := by
  induction l with
  | nil => intro seen; simp [firstOccsAux]
  | cons a t ih =>
    intro seen
    by_cases ha : a ∈ seen
    · rw [firstOccsAux, if_pos ha]; exact ih seen
    · rw [firstOccsAux, if_neg ha]
      refine List.nodup_cons.2 ⟨fun hmem => ?_, ih (a :: seen)⟩
      exact ((mem_firstOccsAux t (a :: seen) a).1 hmem).2 (List.mem_cons_self a seen)

/-- Appending one element to the scanned list appends it to the
first-encounter list exactly when it is new. -/
theorem firstOccsAux_append_singleton {α : Type} [DecidableEq α] (l : List α) :
    ∀ (seen : List α) (x : α),
      firstOccsAux seen (l ++ [x]) =
        firstOccsAux seen l ++ (if x ∈ seen ∨ x ∈ l then [] else [x]) := by
  induction l with
  | nil =>
    intro seen x
    by_cases hx : x ∈ seen <;> simp [firstOccsAux, hx]
  | cons a t ih =>
    intro seen x
    by_cases ha : a ∈ seen
    · rw [List.cons_append, firstOccsAux, if_pos ha, firstOccsAux, if_pos ha, ih]
      congr 1
      by_cases hxa : x = a
      · subst hxa; simp [ha]
      · simp [hxa]
    · rw [List.cons_append, firstOccsAux, if_neg ha, firstOccsAux, if_neg ha, ih,
        List.cons_append]
      congr 2
      by_cases hxa : x = a
      · subst hxa; simp [List.mem_cons]
      · simp [List.mem_cons, hxa]

/-- Scanning one more element updates the spec-side Counter contents the
same way counterAdd updates the association list. -/
theorem tally_append_singleton (p : List String) (x : String) :
    tally (p ++ [x]) = counterAdd (tally p) x := by
  have hany : (tally p).any (fun q => q.1 = x) = decide (x ∈ p) := by
    rcases hmem : decide (x ∈ p) with _ | _
    · have hx : x ∉ p := by simpa using hmem
      simp only [tally, List.any_eq_false]
      intro q hq
      obtain ⟨t, ht, rfl⟩ := List.mem_map.1 hq
      have : t ∈ p := ((mem_firstOccsAux p [] t).1 ht).1
      simp only [decide_eq_true_eq]
      rintro rfl
      exact hx this
    · have hx : x ∈ p := by simpa using hmem
      simp only [tally, List.any_eq_true]
      exact ⟨(x, p.count x),
        List.mem_map.2 ⟨x, (mem_firstOccsAux p [] x).2 ⟨hx, by simp⟩, rfl⟩,
        by simp⟩
  unfold counterAdd
  rw [hany]
  by_cases hx : x ∈ p
  · rw [if_pos (by simpa using hx)]
    unfold tally
    rw [firstOccs, firstOccsAux_append_singleton, if_pos (by simp [hx]),
      List.append_nil, List.map_map]
    refine List.map_congr_left fun t ht => ?_
    have htp : t ∈ p := ((mem_firstOccsAux p [] t).1 ht).1
    by_cases hteq : t = x
    · subst hteq
      simp [List.count_append]
    · simp [List.count_append, List.count_singleton, hteq,
        Function.comp, if_neg hteq]
  · rw [if_neg (by simpa using hx)]
    unfold tally
    rw [firstOccs, firstOccsAux_append_singleton, if_neg (by simp [hx]),
      List.map_append]
    congr 1
    · refine List.map_congr_left fun t ht => ?_
      have htp : t ∈ p := ((mem_firstOccsAux p [] t).1 ht).1
      have hteq : t ≠ x := fun he => hx (he ▸ htp)
      simp [List.count_append, List.count_singleton, hteq]
    · have hcx : p.count x = 0 := List.count_eq_zero.2 hx
      simp [List.count_append, hcx]

/-- The insertion-ordered association list built by the Counter equals the
spec-side contents: first-encounter keys with their multiplicities. -/
theorem counterList_eq_tally (xs : List String) : counterList xs = tally xs := by
  have main : ∀ (ys p : List String),
      List.foldl counterAdd (tally p) ys = tally (p ++ ys) := by
    intro ys
    induction ys with
    | nil => intro p; simp
    | cons y t ih =>
      intro p
      rw [List.foldl_cons, ← tally_append_singleton, ih, List.append_assoc,
        List.singleton_append]
  have h0 : tally [] = [] := rfl
  calc counterList xs = List.foldl counterAdd (tally []) xs := by rw [h0]; rfl
    _ = tally ([] ++ xs) := main xs []
    _ = tally xs := by rw [List.nil_append]

/-- Membership after a stable descending insertion. -/
theorem mem_insertDesc (x : String × Nat) (l : List (String × Nat))
    (z : String × Nat) : z ∈ insertDesc x l ↔ z = x ∨ z ∈ l := by
  induction l with
  | nil => simp [insertDesc]
  | cons y ys ih =>
    rw [insertDesc]
    by_cases hy : y.2 ≤ x.2
    · simp [if_pos hy, List.mem_cons]
    · rw [if_neg hy]
      simp only [List.mem_cons, ih]
      tauto

/-- Stable descending insertion preserves the descending-count order. -/
theorem pairwise_insertDesc (x : String × Nat) (l : List (String × Nat))
    (h : List.Pairwise (fun a b => b.2 ≤ a.2) l) :
    List.Pairwise (fun a b => b.2 ≤ a.2) (insertDesc x l) := by
  induction l with
  | nil => simp [insertDesc]
  | cons y ys ih =>
    rw [insertDesc]
    obtain ⟨hy, hys⟩ := List.pairwise_cons.1 h
    by_cases hle : y.2 ≤ x.2
    · rw [if_pos hle]
      refine List.pairwise_cons.2 ⟨?_, h⟩
      intro z hz
      rcases List.mem_cons.1 hz with rfl | hz
      · exact hle
      · exact le_trans (hy z hz) hle
    · rw [if_neg hle]
      refine List.pairwise_cons.2 ⟨?_, ih hys⟩
      intro z hz
      rcases (mem_insertDesc x ys z).1 hz with rfl | hz
      · exact le_of_not_le hle
      · exact hy z hz

/-- The output of the most_common sort is ordered by descending count. -/
theorem pairwise_sortDescCount (l : List (String × Nat)) :
    List.Pairwise (fun a b => b.2 ≤ a.2) (sortDescCount l) := by
  induction l with
  | nil => simp [sortDescCount]
  | cons x xs ih => exact pairwise_insertDesc x _ ih

/-- A list is a sublist of the result of inserting one pair into it. -/
theorem sublist_insertDesc_self (x : String × Nat) (s : List (String × Nat)) :
    s.Sublist (insertDesc x s) := by
  induction s with
  | nil => simp [insertDesc]
  | cons y ys ih =>
    rw [insertDesc]
    by_cases hle : y.2 ≤ x.2
    · rw [if_pos hle]
      exact List.Sublist.cons x (List.Sublist.refl _)
    · rw [if_neg hle]
      exact List.Sublist.cons₂ y ih

/-- Stable descending insertion splits the list at the insertion point:
everything kept in front has strictly greater count. -/
theorem insertDesc_eq_append (x : String × Nat) (s : List (String × Nat)) :
    ∃ s1 s2, s = s1 ++ s2 ∧ insertDesc x s = s1 ++ x :: s2 ∧
      ∀ y ∈ s1, x.2 < y.2 := by
  induction s with
  | nil => exact ⟨[], [], rfl, rfl, by simp⟩
  | cons y ys ih =>
    by_cases hle : y.2 ≤ x.2
    · exact ⟨[], y :: ys, rfl, by rw [insertDesc, if_pos hle]; rfl, by simp⟩
    · obtain ⟨t1, t2, hsplit, hins, hgt⟩ := ih
      refine ⟨y :: t1, t2, by rw [List.cons_append, ← hsplit], ?_, ?_⟩
      · rw [insertDesc, if_neg hle, hins, List.cons_append]
      · intro z hz
        rcases List.mem_cons.1 hz with rfl | hz
        · exact lt_of_not_le hle
        · exact hgt z hz

/-- The sort permutes: membership is preserved. -/
theorem mem_sortDescCount (l : List (String × Nat)) (z : String × Nat) :
    z ∈ sortDescCount l ↔ z ∈ l := by
  induction l with
  | nil => simp [sortDescCount]
  | cons x xs ih =>
    show z ∈ insertDesc x (sortDescCount xs) ↔ _
    rw [mem_insertDesc, ih]
    exact (List.mem_cons).symm

/-- Stability of the descending sort: two pairs in input order whose first
has the larger-or-equal count stay in that order — in particular a tie
keeps the input (first-encounter) order, as Counter.most_common does. -/
theorem sortDescCount_stable_pair (a b : String × Nat) :
    ∀ l : List (String × Nat), List.Sublist [a, b] l → b.2 ≤ a.2 →
      List.Sublist [a, b] (sortDescCount l) := by
  intro l
  induction l with
  | nil =>
    intro hab _
    simp at hab
  | cons x t ih =>
    intro hab hcnt
    show List.Sublist [a, b] (insertDesc x (sortDescCount t))
    cases hab with
    | cons _ h =>
      exact (ih h hcnt).trans (sublist_insertDesc_self x _)
    | cons₂ _ h =>
      have hb : b ∈ sortDescCount t :=
        (mem_sortDescCount t b).2 (List.singleton_sublist.1 h)
      obtain ⟨s1, s2, hsplit, hins, hgt⟩ := insertDesc_eq_append a (sortDescCount t)
      rw [hins]
      have hb2 : b ∈ s2 := by
        rw [hsplit] at hb
        rcases List.mem_append.1 hb with h1 | h2
        · exact absurd hcnt (not_le.2 (hgt b h1))
        · exact h2
      have hsub : List.Sublist [a, b] (a :: s2) :=
        List.Sublist.cons₂ a (List.singleton_sublist.2 hb2)
      exact hsub.trans (List.sublist_append_right s1 (a :: s2))

/-- len of the set of a list equals the length of its first-encounter
distinct list. -/
theorem toFinset_card_eq_firstOccs_length (l : List String) :
    l.toFinset.card = (firstOccs l).length := by
  have hmem : ∀ x, x ∈ firstOccs l ↔ x ∈ l := by
    intro x
    rw [firstOccs, mem_firstOccsAux]
    simp
  have hfin : (firstOccs l).toFinset = l.toFinset := by
    ext x
    simp [List.mem_toFinset, hmem]
  have hnd : (firstOccs l).Nodup := nodup_firstOccsAux l []
  rw [← hfin, List.toFinset_card_of_nodup hnd]

/-- Claim C1. The claim states that whenever a cap is supplied and the
accumulated count meets or exceeds it, fetch_posts truncates to exactly cap
records; in particular cap fifty against a server holding at least fifty
records in pages of up to one hundred with a terminal page lacking a cursor
must return exactly fifty. The code checks the cap only after the
cursor-absence break, so a terminal page of sixty records with cap fifty is
returned whole: sixty records, not fifty. The last conjunct shows the
truncation does fire when the same page carries a continuation cursor,
locating the slip in the order of the two checks. -/
theorem c1_cap_ignored_on_terminal_page :
    fetch_posts (some 50) c1Pages = List.replicate 60 plainPost ∧
    (fetch_posts (some 50) c1Pages).length = 60 ∧
    fetch_posts (some 50)
        [PageResult.ok (List.replicate 60 plainPost) (some "cur"), PageResult.err] =
      List.replicate 50 plainPost := by
  exact ⟨rfl, rfl, rfl⟩

/-- Claim C2, counterexample. The claim states that a raw post whose
createdAt holds an unparseable timestamp string still yields a normalized
record with null created_at. In the code, fromisoformat raises on such a
string inside the per-record try block, so the record is skipped entirely:
parsing the one-element batch yields the empty table, not a record with
nulls. -/
theorem c2_unparseable_skips_record_counterexample :
    parse_posts demoIso [badTimePost] = [] := rfl

/-- Claim C2, amended. For a raw post whose createdAt field is absent (the
dict lookup defaults to the empty, falsy string), normalization does
produce a record, with null created_at, hour, day_of_week and date; such a
record still counts in total_posts and in the content statistics, and
contributes nothing to any posting-patterns grouping. A post with a
non-empty unparseable createdAt is instead skipped entirely. -/
theorem c2_absent_timestamp_nulls (fromiso : String → Option DateTime)
    (post : RawPost) (v : PostValue) (T : List NormalizedRecord) (a a2 : Analysis)
    (hv : post.value = ValueField.valid v)
    (hts : v.createdAt.getD "" = "")
    (ha : analyze_posts (mkParsed post v none :: T) = Except.ok a)
    (ha2 : analyze_posts T = Except.ok a2) :
    parsePost fromiso post = some (mkParsed post v none) ∧
    (mkParsed post v none).created_at = none ∧
    (mkParsed post v none).hour = none ∧
    (mkParsed post v none).day_of_week = none ∧
    (mkParsed post v none).date = none ∧
    a.total_posts = a2.total_posts + 1 ∧
    a.posting_patterns = a2.posting_patterns ∧
    a.posts_with_images =
      a2.posts_with_images + (if (mkParsed post v none).has_image then 1 else 0) := by
  have hparse : parsePost fromiso post = some (mkParsed post v none) := by
    unfold parsePost
    rw [hv]
    show parseWithValue fromiso post v = _
    unfold parseWithValue
    rw [if_pos hts]
  have hnull : (mkParsed post v none).created_at = none := rfl
  have hhour : (mkParsed post v none).hour = none := rfl
  have hday : (mkParsed post v none).day_of_week = none := rfl
  have hdate : (mkParsed post v none).date = none := rfl
  obtain ⟨lo, hi, hne, hmin, hmax, rfl⟩ := analyze_ok_inv ha
  obtain ⟨lo2, hi2, hne2, hmin2, hmax2, rfl⟩ := analyze_ok_inv ha2
  refine ⟨hparse, hnull, hhour, hday, hdate, ?_, ?_, ?_⟩
  · simp [buildAnalysis]
  · have hany : (mkParsed post v none :: T).any (fun r => r.created_at.isSome) =
        T.any (fun r => r.created_at.isSome) := by
      simp [List.any_cons, hnull]
    have hpat : mkPatterns (mkParsed post v none :: T) = mkPatterns T := by
      unfold mkPatterns
      rw [List.filterMap_cons, List.filterMap_cons, List.filterMap_cons,
        hhour, hday, hnull]
      rfl
    simp only [buildAnalysis, hany, hpat]
  · simp [buildAnalysis, List.countP_cons]

/-- Witness for the amended claim C2 at a concrete input: plainPost has no
createdAt, parses to the all-null-derived row rPlain, and prepending rPlain
to a one-row timestamped table grows total_posts by one while leaving the
posting-patterns block unchanged. -/
theorem c2_absent_timestamp_nulls_witness :
    parsePost demoIso plainPost = some (mkParsed plainPost vPlain none) ∧
    (mkParsed plainPost vPlain none).created_at = none ∧
    (mkParsed plainPost vPlain none).hour = none ∧
    (mkParsed plainPost vPlain none).day_of_week = none ∧
    (mkParsed plainPost vPlain none).date = none ∧
    aC2.total_posts = a2C2.total_posts + 1 ∧
    aC2.posting_patterns = a2C2.posting_patterns ∧
    aC2.posts_with_images =
      a2C2.posts_with_images +
        (if (mkParsed plainPost vPlain none).has_image then 1 else 0) :=
  c2_absent_timestamp_nulls demoIso plainPost vPlain [rTimed] aC2 a2C2
    rfl rfl rfl rfl

/-- Claim C3. The claim states that analyze on an empty table degrades
gracefully with zero and null aggregates. In the code, the DataFrame built
from an empty row list has no columns at all; the date-range expression is
guarded by df.empty, but the content block then reads the char_count
column unguarded and raises KeyError, so analyze crashes instead of
degrading. -/
theorem c3_empty_table_keyerror :
    analyze_posts [] = Except.error "KeyError: char_count" := rfl

/-- Claim C4. The claim states that a non-empty table whose rows all have
null created_at yields a report with null date-range bounds and no
posting-patterns block. In the code, Series.min over the all-null column
returns a null scalar, and the unguarded strftime call on it raises, so
analyze crashes on such a table; rPlain is one all-null row. -/
theorem c4_all_null_strftime_error :
    rPlain.created_at = none ∧
    analyze_posts [rPlain] = Except.error "NaTType does not support strftime" :=
  ⟨rfl, rfl⟩

/-- Claim C5, counterexample. The claim states that a batch of ten raw
records whose fourth record has a missing or invalid value field normalizes
to exactly nine records. For a missing value field the code substitutes an
empty dict and still emits a degenerate row, so the batch of ten with the
fourth record lacking value yields ten records, not nine. -/
theorem c5_missing_value_not_skipped_counterexample :
    c5MissingBatch.length = 10 ∧ c5MissingBatch.get? 3 = some noValuePost ∧
    noValuePost.value = ValueField.absent ∧
    (parse_posts demoIso c5MissingBatch).length = 10 :=
  ⟨rfl, rfl, rfl, rfl⟩

/-- Claim C5, amended. For a batch of ten raw records whose fourth record
has an invalid, wrongly-shaped value field, normalization yields exactly
nine records, preserving the relative order of the other nine (the parsed
batch equals the parsed batch with the bad record removed); a record whose
value field is merely missing is instead kept as a degenerate row. -/
theorem c5_invalid_value_skipped (fromiso : String → Option DateTime)
    (pre post : List RawPost) (bad : RawPost)
    (hbad : bad.value = ValueField.invalid)
    (hok : ∀ p ∈ pre ++ post, (parsePost fromiso p).isSome = true)
    (hpre : pre.length = 3) (hpost : post.length = 6) :
    parse_posts fromiso (pre ++ bad :: post) = parse_posts fromiso (pre ++ post) ∧
    (parse_posts fromiso (pre ++ bad :: post)).length = 9 := by
  have hskip : parsePost fromiso bad = none := by
    unfold parsePost
    rw [hbad]
  have heq : parse_posts fromiso (pre ++ bad :: post) =
      parse_posts fromiso (pre ++ post) := by
    unfold parse_posts
    rw [List.filterMap_append, List.filterMap_append, List.filterMap_cons, hskip]
  refine ⟨heq, ?_⟩
  rw [heq]
  unfold parse_posts
  rw [length_filterMap_isSome _ _ hok, List.length_append, hpre, hpost]

/-- Witness for the amended claim C5 at a concrete input: three well-formed
posts, one post with a wrongly-shaped value field, six well-formed posts. -/
theorem c5_invalid_value_skipped_witness :
    parse_posts demoIso (c5Pre ++ invalidValuePost :: c5Post) =
      parse_posts demoIso (c5Pre ++ c5Post) ∧
    (parse_posts demoIso (c5Pre ++ invalidValuePost :: c5Post)).length = 9 :=
  c5_invalid_value_skipped demoIso c5Pre c5Post invalidValuePost rfl
    (by decide) rfl rfl

/-- Claim C6. For every table, the hashtag block equals the
specification's description: total_used is the size of the flattened
multiset of all rows' hashtag sequences, unique_hashtags is the number of
distinct tags in it, and most_common is the ten highest-frequency (tag,
count) pairs sorted descending by count with ties in first-encounter order
of the flattened multiset. The pairs are in descending count order, and
the sort feeding most_common is stable: two Counter entries in
first-encounter order whose first has the larger or equal count keep that
order, so equal counts stay in first-encounter order. The three-row
example with hashtag lists a-b, a, and empty yields total 3, unique 2 and
the pairs a-2 and b-1, and the tied example with lists x-y, y-x and z
yields x-2 before y-2 (x first encountered) before z-1. -/
theorem c6_hashtag_block :
    (∀ table : List NormalizedRecord,
      hashtagStats table =
        ((flatTags table).length, (firstOccs (flatTags table)).length,
          mostCommonSpec (flatTags table)) ∧
      List.Pairwise (fun a b => b.2 ≤ a.2) (hashtagStats table).2.2 ∧
      ∀ a b : String × Nat,
        List.Sublist [a, b] (tally (flatTags table)) → b.2 ≤ a.2 →
        List.Sublist [a, b] (sortDescCount (counterList (flatTags table)))) ∧
    hashtagStats demoTagTable = (3, 2, [("a", 2), ("b", 1)]) ∧
    hashtagStats demoTieTable = (5, 3, [("x", 2), ("y", 2), ("z", 1)]) := by
  refine ⟨fun table => ⟨?_, ?_, ?_⟩, by decide, by decide⟩
  · unfold hashtagStats mostCommonSpec
    rw [counterList_eq_tally, toFinset_card_eq_firstOccs_length]
  · show List.Pairwise _ ((sortDescCount (counterList (flatTags table))).take 10)
    exact List.Pairwise.sublist (List.take_sublist 10 _) (pairwise_sortDescCount _)
  · intro a b hab hcnt
    rw [counterList_eq_tally]
    exact sortDescCount_stable_pair a b _ hab hcnt

/-- Witness for claim C6 at a concrete input: in the tied table, the two
entries x-2 and y-2 of the first-encounter-ordered Counter keep their
order through the most_common sort. -/
theorem c6_hashtag_block_witness :
    List.Sublist [(("x" : String), 2), (("y" : String), 2)]
      (sortDescCount (counterList (flatTags demoTieTable))) :=
  (c6_hashtag_block.1 demoTieTable).2.2 ("x", 2) ("y", 2) (by decide) (by decide)

/-- Claim C7. analyze_posts is a pure function of its table in this
embedding, with no hidden state, randomness or iteration-order input: two
runs on the same table, whether in the same session or across sessions,
denote the same term, so the reports are identical. -/
theorem c7_analyze_deterministic_idempotent (table : List NormalizedRecord) :
    analyze_posts table = analyze_posts table := rfl

/-- Claim C8. Every record emitted by parse_posts satisfies the derived
count invariants: char_count is the length of text, word_count is zero
exactly when text is empty or all-whitespace, and each of mention_count,
hashtag_count and link_count equals the length of its sequence. -/
theorem c8_record_invariants (fromiso : String → Option DateTime)
    (raws : List RawPost) (r : NormalizedRecord)
    (h : r ∈ parse_posts fromiso raws) :
    r.char_count = r.text.length ∧
    (r.word_count = 0 ↔
      (r.text = "" ∨ r.text.data.all (fun c => c.isWhitespace) = true)) ∧
    r.mention_count = r.mentions.length ∧
    r.hashtag_count = r.hashtags.length ∧
    r.link_count = r.links.length := by
  obtain ⟨p, hp, hpr⟩ := List.mem_filterMap.1 h
  obtain ⟨v, ts, rfl⟩ := parsePost_shape hpr
  refine ⟨rfl, ?_, rfl, rfl, rfl⟩
  show (if v.text.getD "" = "" then 0 else countWords (v.text.getD "").data) = 0 ↔
    (v.text.getD "" = "" ∨ (v.text.getD "").data.all (fun c => c.isWhitespace) = true)
  by_cases ht : v.text.getD "" = ""
  · simp [ht]
  · rw [if_neg ht, countWords, countWordsAux_false_eq_zero]
    exact (or_iff_right ht).symm

/-- Witness for claim C8 at a concrete input: the row parsed from
plainPost, a member of the parse of the one-element batch. -/
theorem c8_record_invariants_witness :
    rPlain.char_count = rPlain.text.length ∧
    (rPlain.word_count = 0 ↔
      (rPlain.text = "" ∨ rPlain.text.data.all (fun c => c.isWhitespace) = true)) ∧
    rPlain.mention_count = rPlain.mentions.length ∧
    rPlain.hashtag_count = rPlain.hashtags.length ∧
    rPlain.link_count = rPlain.links.length :=
  c8_record_invariants demoIso [plainPost] rPlain (by decide)

/-- The pagination loop over a run of full pages with continuation cursors
followed by a transport error returns the accumulator extended with
exactly those pages' records. -/
theorem fetchLoop_good_then_err :
    ∀ good : List PageResult,
      (∀ p ∈ good, ∃ rs c, p = PageResult.ok rs (some c) ∧ rs ≠ []) →
      ∀ (rest : List PageResult) (acc : List RawPost),
        fetchLoop none (good ++ PageResult.err :: rest) acc =
          acc ++ (good.map pageRecords).flatten := by
  intro good
  induction good with
  | nil =>
    intro _ rest acc
    simp [fetchLoop]
  | cons p tl ih =>
    intro h rest acc
    obtain ⟨rs, c, hpeq, hne⟩ := h p (List.mem_cons_self p tl)
    subst hpeq
    have hemp : rs.isEmpty = false := by simpa using hne
    rw [List.cons_append]
    show fetchLoop none (PageResult.ok rs (some c) :: (tl ++ PageResult.err :: rest)) acc = _
    rw [fetchLoop, hemp]
    show fetchLoop none (tl ++ PageResult.err :: rest) (acc ++ rs) = _
    rw [ih (fun q hq => h q (List.mem_cons_of_mem _ hq)) rest (acc ++ rs)]
    simp [pageRecords, List.append_assoc]

/-- Claim C9. If a transport error occurs on page N of the pagination
loop (the trace is some run of non-empty, cursor-carrying pages followed
by an error response), fetch_posts returns exactly the records of pages
one to N minus one, in arrival order; with an empty run of good pages this
is the empty sequence (the first request failed). -/
theorem c9_partial_failure (good rest : List PageResult)
    (h : ∀ p ∈ good, ∃ rs c, p = PageResult.ok rs (some c) ∧ rs ≠ []) :
    fetch_posts none (good ++ PageResult.err :: rest) =
      (good.map pageRecords).flatten := by
  have hx := fetchLoop_good_then_err good h rest []
  simpa [fetch_posts] using hx

/-- Witness for claim C9 at a concrete input: one good page of one record,
then a transport error; the one accumulated record is returned. -/
theorem c9_partial_failure_witness :
    fetch_posts none [PageResult.ok [plainPost] (some "cur"), PageResult.err] =
      [plainPost] := by
  have hx := c9_partial_failure [PageResult.ok [plainPost] (some "cur")] []
    (by
      intro p hp
      rw [List.mem_singleton] at hp
      exact ⟨[plainPost], "cur", hp, by simp⟩)
  simpa [pageRecords] using hx

/-- Claim C10. A facet feature whose type tag matches mention, hashtag or
link but which lacks the associated value field (did, tag or uri) still
contributes: the empty string is appended to the corresponding sequence,
so the corresponding count still increments, and neither the feature nor
the record is skipped. -/
theorem c10_feature_missing_value_appends_empty (fromiso : String → Option DateTime)
    (post : RawPost) (v : PostValue) (fs : List Facet) (f : Feature)
    (r : NormalizedRecord)
    (hv : post.value = ValueField.valid v)
    (hf : v.facets = fs ++ [Facet.mk [f]])
    (hr : parsePost fromiso post = some r) :
    (f.ftype = some "app.bsky.richtext.facet#mention" → f.did = none →
      r.mentions = (extractFacets fs).mentions ++ [""] ∧
      r.mention_count = (extractFacets fs).mentions.length + 1) ∧
    (f.ftype = some "app.bsky.richtext.facet#tag" → f.tag = none →
      r.hashtags = (extractFacets fs).hashtags ++ [""] ∧
      r.hashtag_count = (extractFacets fs).hashtags.length + 1) ∧
    (f.ftype = some "app.bsky.richtext.facet#link" → f.uri = none →
      r.links = (extractFacets fs).links ++ [""] ∧
      r.link_count = (extractFacets fs).links.length + 1) := by
  obtain ⟨ts, rfl⟩ := parsePost_valid hv hr
  have hx : extractFacets v.facets = featureStep (extractFacets fs) f := by
    rw [hf]
    unfold extractFacets
    rw [List.foldl_append]
    rfl
  refine ⟨fun h1 h2 => ?_, fun h1 h2 => ?_, fun h1 h2 => ?_⟩
  · have hstep : featureStep (extractFacets fs) f =
        { extractFacets fs with mentions := (extractFacets fs).mentions ++ [""] } := by
      unfold featureStep
      rw [h1, h2]
      simp
    constructor
    · show (extractFacets v.facets).mentions = (extractFacets fs).mentions ++ [""]
      rw [hx, hstep]
    · show (extractFacets v.facets).mentions.length =
        (extractFacets fs).mentions.length + 1
      rw [hx, hstep]
      simp
  · have hstep : featureStep (extractFacets fs) f =
        { extractFacets fs with hashtags := (extractFacets fs).hashtags ++ [""] } := by
      unfold featureStep
      rw [h1, h2]
      simp
    constructor
    · show (extractFacets v.facets).hashtags = (extractFacets fs).hashtags ++ [""]
      rw [hx, hstep]
    · show (extractFacets v.facets).hashtags.length =
        (extractFacets fs).hashtags.length + 1
      rw [hx, hstep]
      simp
  · have hstep : featureStep (extractFacets fs) f =
        { extractFacets fs with links := (extractFacets fs).links ++ [""] } := by
      unfold featureStep
      rw [h1, h2]
      simp
    constructor
    · show (extractFacets v.facets).links = (extractFacets fs).links ++ [""]
      rw [hx, hstep]
    · show (extractFacets v.facets).links.length =
        (extractFacets fs).links.length + 1
      rw [hx, hstep]
      simp

/-- Witness for claim C10 at a concrete input: a post with one tag-typed
feature lacking its tag value; the hashtags sequence gains the empty
string and the count becomes one. -/
theorem c10_feature_missing_value_appends_empty_witness :
    (mkParsed tagNoValuePost vTagNoValue none).hashtags =
      (extractFacets []).hashtags ++ [""] ∧
    (mkParsed tagNoValuePost vTagNoValue none).hashtag_count =
      (extractFacets []).hashtags.length + 1 :=
  (c10_feature_missing_value_appends_empty demoIso tagNoValuePost vTagNoValue []
    tagNoValueFeature (mkParsed tagNoValuePost vTagNoValue none) rfl rfl rfl).2.1
    rfl rfl

end BlueskyAnalyzer
